import Mathlib

/-!
Verification of the room-scoped real-time message hub (`class Chat` in
`src/server/index.ts`) of the samary-chat repository.

The embedding models the hub's in-memory state (`messages`, `directMessages`,
`onlineUsers`, `connectionUsers`), its SQLite-backed tables (`messages`,
`direct_messages`), and the event handlers `onConnect`, `onClose`, `onMessage`,
`saveMessage`, `saveDirectMessage`, `updatePresence`.

Modelling conventions:
- JavaScript `Map<string,string>` is an insertion-ordered association list;
  `set` replaces in place or appends, `delete` removes the entry, `values()`
  lists values in insertion order.
- JavaScript `Set<string>` is an insertion-ordered duplicate-free list; the code
  only adds behind a `has` guard, so append models `add`.
- `Chat.saveMessage` builds its `INSERT ... ON CONFLICT (id) DO UPDATE SET
  content = ...` statement by raw template-literal interpolation. A single
  quote in `id`, `user` or `role` breaks out of its single-quoted SQL literal,
  and a double quote in `content` breaks out of the double-quoted literal that
  `JSON.stringify` produces (its escape `\x22` is not a SQLite escape): in
  either case the statement is unparseable, `sql.exec` throws and the table is
  unwritten. When the interpolation stays inside the intended literals, the
  statement is the upsert whose conflict branch updates only the `content`
  column, and the value stored in `content` is the body of the
  `JSON.stringify` result (so backslashes and control characters are stored in
  their escaped spelling); this is modelled by `jsonEscapeBody`. The plain
  parameterized `INSERT` of `saveDirectMessage` binds its values safely and
  throws exactly on a duplicate primary key, leaving the table unchanged
  (SQLite aborts the statement).
- A thrown JavaScript exception is a `true` "raised" flag; mutations performed
  before the throw are kept, as in JavaScript.
- `JSON.parse` on an inbound frame is modelled by the `RawEvent` sum: frames on
  which it throws, frames that parse to the JSON value `null` (on which the
  subsequent `parsed.type` property access throws a TypeError), frames that
  parse to any other value whose `type` tag matches no dispatch branch, and
  frames that parse to a wire `Message`.
- partyserver's `Server.broadcast(msg, without?)` delivers `msg` to every
  current connection whose id is not listed in `without`; `Chat` always calls
  `this.broadcast(msg)` with no `without` argument.
-/

namespace SamaryChat

/-- Type `ChatMessage` from `src/shared.ts`: `{id, content, user, role}`. TypeScript
narrows `role` to `"user" | "assistant"`, but values reach the hub through an
unchecked cast of `JSON.parse`, so the field is modelled as a string. -/
structure ChatMessage where
  id : String
  content : String
  user : String
  role : String
  deriving DecidableEq, Repr

/-- Type `DirectMessage` from `src/shared.ts` (without its constant `type` tag):
`{id, content, fromUserId, toUserId, fromDisplayName, createdAt}`. -/
structure DirectMessage where
  id : String
  content : String
  fromUserId : String
  toUserId : String
  fromDisplayName : String
  createdAt : Int
  deriving DecidableEq, Repr

/-- The wire-protocol `Message` union from `src/shared.ts`. -/
inductive Message where
  | add (id content user role : String)
  | update (id content user role : String)
  | all (messages : List ChatMessage)
  | signal (fromUserId toUserId signalType payload : String)
  | directAdd (m : DirectMessage)
  | directAll (messages : List DirectMessage)
  | presence (userId : String) (isOnline : Bool)
  | typing (fromUserId toUserId : String) (isTyping : Bool)
  | roomInvite (id roomId roomName fromUserId fromDisplayName toUserId : String)
      (createdAt : Int)
  deriving DecidableEq, Repr

/-- An inbound WebSocket frame together with the outcome of `JSON.parse` on its
bytes: `malformed` frames make `JSON.parse` throw; `nullLit` frames (such as
the text "null") parse to the JSON value `null`, so the handler's `parsed.type`
access throws a TypeError; `unknown` frames parse to any other value whose
`type` tag matches no branch of `Chat.onMessage` (primitives, arrays, objects
with a missing or unrecognized tag); `event` frames parse to a wire
`Message`. -/
inductive RawEvent where
  | malformed (raw : String)
  | nullLit (raw : String)
  | unknown (raw : String)
  | event (raw : String) (m : Message)
  deriving DecidableEq, Repr

/-- The bytes of the frame, as passed verbatim to `this.broadcast(message)`. -/
def RawEvent.raw : RawEvent → String
  | .malformed r => r
  | .nullLit r => r
  | .unknown r => r
  | .event r _ => r

/-- A payload written to a socket: either the `JSON.stringify` of a
hub-constructed `Message`, or inbound bytes forwarded verbatim. -/
inductive Payload where
  | msg (m : Message)
  | raw (s : String)
  deriving DecidableEq, Repr

/-- One socket write performed by the hub: `connection.send(p)` to a single
connection, or `this.broadcast(p)` to the room. -/
inductive Output where
  | send (conn : String) (p : Payload)
  | broadcast (p : Payload)
  deriving DecidableEq, Repr

/-- A row of the SQLite `messages` table:
`(id TEXT PRIMARY KEY, user TEXT, role TEXT, content TEXT)`. -/
structure DbRow where
  id : String
  user : String
  role : String
  content : String
  deriving DecidableEq, Repr

/-- The state of one `Chat` durable object: the open connections tracked by the
runtime (`getConnections`), the four in-memory fields of `class Chat`, and the
two SQLite tables. -/
@[ext]
structure ChatState where
  connections : List String
  messages : List ChatMessage
  directMessages : List DirectMessage
  onlineUsers : List String
  connectionUsers : List (String × String)
  dbMessages : List DbRow
  dbDirect : List DirectMessage
  deriving DecidableEq, Repr

/-- Operation `Map.get`: the value of the first (and, for genuine JS map states, only)
entry with the given key. -/
def mapGet (m : List (String × String)) (k : String) : Option String :=
  (m.find? (fun e => e.1 == k)).map (fun e => e.2)

/-- Operation `Map.set`: replace the value in place if the key is present, else append. -/
def mapSet (m : List (String × String)) (k v : String) : List (String × String) :=
  if m.any (fun e => e.1 == k) then
    m.map (fun e => if e.1 == k then (k, v) else e)
  else
    m ++ [(k, v)]

/-- Operation `Map.delete`: remove the entry with the given key. -/
def mapDelete (m : List (String × String)) (k : String) : List (String × String) :=
  m.filter (fun e => e.1 != k)

/-- Spread `[...map.values()]` in insertion order. -/
def mapValues (m : List (String × String)) : List String :=
  m.map (fun e => e.2)

/-- Handler `Chat.onConnect`: the runtime adds the connection to `getConnections`, then
the handler sends the new connection the full `messages` list as one `all`
frame, the full `directMessages` list as one `direct-all` frame, and one
`presence … isOnline: true` frame per user id in `onlineUsers`. -/
def onConnect (s : ChatState) (conn : String) : ChatState × List Output :=
  ({ s with connections := s.connections ++ [conn] },
    [Output.send conn (Payload.msg (Message.all s.messages)),
     Output.send conn (Payload.msg (Message.directAll s.directMessages))]
    ++ s.onlineUsers.map (fun u => Output.send conn (Payload.msg (Message.presence u true))))

/-- Handler `Chat.onClose`: the runtime drops the connection from
`getConnections`; the handler looks up the connection's attributed user and
runs the JavaScript falsy check `if (!userId) return`, which fires both when
the attribution is absent (`undefined`) and when the attributed user id is the
empty string — in either case nothing further happens and the stale attribution
entry is kept. Otherwise it removes the attribution, and if no remaining
attributed connection carries that user, removes the user from `onlineUsers`
and broadcasts a single `presence … isOnline: false` frame. -/
def onClose (s : ChatState) (conn : String) : ChatState × List Output :=
  let s0 := { s with connections := s.connections.erase conn }
  match mapGet s0.connectionUsers conn with
  | none => (s0, [])
  | some userId =>
    if userId == "" then
      (s0, [])
    else
      let cu := mapDelete s0.connectionUsers conn
      if (mapValues cu).any (fun x => x == userId) then
        ({ s0 with connectionUsers := cu }, [])
      else
        ({ s0 with connectionUsers := cu,
                   onlineUsers := s0.onlineUsers.filter (fun x => x != userId) },
          [Output.broadcast (Payload.msg (Message.presence userId false))])

/-- The single-quote character, which delimits the interpolated SQL string
literals for `id`, `user` and `role` in `Chat.saveMessage`. -/
def singleQuoteChar : Char := Char.ofNat 39

/-- The double-quote character, which delimits the result of `JSON.stringify`
and hence the SQL literal interpolated for `content`. -/
def doubleQuoteChar : Char := Char.ofNat 34

/-- The backslash character, used by `JSON.stringify` to introduce escapes. -/
def backslashChar : Char := Char.ofNat 92

/-- Whether the string contains the character. -/
def hasChar (s : String) (c : Char) : Bool :=
  s.data.any (fun x => x == c)

/-- A lowercase hexadecimal digit, as `JSON.stringify` prints in `\u00..`
escapes. -/
def hexDigit (n : Nat) : Char :=
  if n < 10 then Char.ofNat (48 + n) else Char.ofNat (87 + n)

/-- How `JSON.stringify` renders one character inside the double-quoted result:
quote, backslash and control characters are escaped, everything else passes
through unchanged. -/
def jsonEscapeChar (c : Char) : List Char :=
  if c = doubleQuoteChar then [backslashChar, doubleQuoteChar]
  else if c = backslashChar then [backslashChar, backslashChar]
  else if c.toNat = 8 then [backslashChar, 'b']
  else if c.toNat = 9 then [backslashChar, 't']
  else if c.toNat = 10 then [backslashChar, 'n']
  else if c.toNat = 12 then [backslashChar, 'f']
  else if c.toNat = 13 then [backslashChar, 'r']
  else if c.toNat < 32 then
    [backslashChar, 'u', '0', '0', hexDigit (c.toNat / 16), hexDigit (c.toNat % 16)]
  else [c]

/-- The text between the outer double quotes of `JSON.stringify s`. SQLite's
double-quoted-string fallback reads this text back verbatim, so it is also the
value the interpolated statement stores in the `content` column. -/
def jsonEscapeBody (s : String) : String :=
  ⟨(s.data.map jsonEscapeChar).flatten⟩

/-- A character `JSON.stringify` passes through unescaped. -/
def jsonPlainChar (c : Char) : Bool :=
  (c != doubleQuoteChar) && (c != backslashChar) && (32 ≤ c.toNat)

/-- A string whose `JSON.stringify` body is the string itself. -/
def jsonPlain (s : String) : Bool :=
  s.data.all jsonPlainChar

/-- Whether the template-literal interpolation of `Chat.saveMessage` produces a
parseable SQL statement: a single quote in `id`, `user` or `role` breaks out of
its single-quoted literal, and a double quote in `content` breaks out of the
double-quoted literal produced by `JSON.stringify` (whose escape is not a
SQLite escape); in either case `sql.exec` throws. -/
def saveMessageSqlOk (m : ChatMessage) : Bool :=
  !(hasChar m.id singleQuoteChar) && !(hasChar m.user singleQuoteChar) &&
    !(hasChar m.role singleQuoteChar) && !(hasChar m.content doubleQuoteChar)

/-- A message whose interpolated statement parses and whose content survives
the `JSON.stringify` round trip unchanged (no quotes in the quoted fields, no
backslash or control character in `content`). -/
def saveMessageClean (m : ChatMessage) : Bool :=
  !(hasChar m.id singleQuoteChar) && !(hasChar m.user singleQuoteChar) &&
    !(hasChar m.role singleQuoteChar) && jsonPlain m.content

/-- The `INSERT INTO messages … ON CONFLICT (id) DO UPDATE SET content = …`
statement of `Chat.saveMessage`, applied to the four literal values the
well-formed interpolated text carries: insert a fresh row, or update only the
`content` column of the conflicting row. -/
def dbUpsertMessage (db : List DbRow) (mid muser mrole mcontent : String) :
    List DbRow :=
  if db.any (fun r => r.id == mid) then
    db.map (fun r => if r.id == mid then { r with content := mcontent } else r)
  else
    db ++ [⟨mid, muser, mrole, mcontent⟩]

/-- Method `Chat.saveMessage`: if an in-memory message with the same id exists,
replace every such entry in place via `map`; otherwise `push`. Then execute the
interpolated SQL statement: when the interpolation is well-formed it is the
upsert, storing the `JSON.stringify` body as the content; otherwise `sql.exec`
throws, the table is unwritten and the in-memory update survives. The returned
flag records whether the statement threw. -/
def saveMessage (s : ChatState) (m : ChatMessage) : ChatState × Bool :=
  let msgs :=
    if s.messages.any (fun x => x.id == m.id) then
      s.messages.map (fun x => if x.id == m.id then m else x)
    else
      s.messages ++ [m]
  let ok := saveMessageSqlOk m
  let db :=
    if ok then dbUpsertMessage s.dbMessages m.id m.user m.role (jsonEscapeBody m.content)
    else s.dbMessages
  ({ s with messages := msgs, dbMessages := db }, !ok)

/-- Method `Chat.saveDirectMessage`: `push` onto the in-memory list
unconditionally, then `INSERT` with parameterized bindings (no conflict clause)
into `direct_messages`. A duplicate id hits the primary key, so `sql.exec`
throws after the in-memory push and the table keeps its rows; the returned
flag records whether the statement threw. -/
def saveDirectMessage (s : ChatState) (m : DirectMessage) : ChatState × Bool :=
  let dup := s.dbDirect.any (fun x => x.id == m.id)
  ({ s with directMessages := s.directMessages ++ [m]
            dbDirect := if dup then s.dbDirect else s.dbDirect ++ [m] }, dup)

/-- Method `Chat.updatePresence`: ignore `isOnline = false` claims; otherwise attribute
the connection to the user, and if the user was not yet online, add them to
`onlineUsers` and broadcast `presence … isOnline: true`. -/
def updatePresence (s : ChatState) (conn userId : String) (isOnline : Bool) :
    ChatState × List Output :=
  if !isOnline then (s, [])
  else
    let cu := mapSet s.connectionUsers conn userId
    if s.onlineUsers.any (fun x => x == userId) then
      ({ s with connectionUsers := cu }, [])
    else
      ({ s with connectionUsers := cu, onlineUsers := s.onlineUsers ++ [userId] },
        [Output.broadcast (Payload.msg (Message.presence userId true))])

/-- Handler `Chat.onMessage`: broadcast the raw frame first, then `JSON.parse`
it (throwing on malformed frames, and throwing a TypeError at `parsed.type`
when the frame parses to `null`) and dispatch on the `type` tag. The returned
flag records whether the handler threw. -/
def onMessage (s : ChatState) (conn : String) (ev : RawEvent) :
    ChatState × List Output × Bool :=
  let echo : List Output := [Output.broadcast (Payload.raw ev.raw)]
  match ev with
  | .malformed _ => (s, echo, true)
  | .nullLit _ => (s, echo, true)
  | .unknown _ => (s, echo, false)
  | .event _ m =>
    match m with
    | .add id content user role =>
        let r := saveMessage s ⟨id, content, user, role⟩
        (r.1, echo, r.2)
    | .update id content user role =>
        let r := saveMessage s ⟨id, content, user, role⟩
        (r.1, echo, r.2)
    | .directAdd dm =>
        let r := saveDirectMessage s dm
        (r.1, echo, r.2)
    | .presence userId isOnline =>
        let r := updatePresence s conn userId isOnline
        (r.1, echo ++ r.2, false)
    | _ => (s, echo, false)

/-- Fan-out of one socket write: `connection.send` reaches its one connection;
partyserver's `broadcast` with no `without` list reaches every current
connection, the sender of the frame included. -/
def deliveries (conns : List String) (o : Output) : List (String × Payload) :=
  match o with
  | .send c p => [(c, p)]
  | .broadcast p => conns.map (fun c => (c, p))

/-- The hub state right after `onStart` hydration: no connections, no presence,
in-memory histories loaded from the two tables (`SELECT * FROM messages` yields
the `ChatMessage` fields from the row columns). -/
def initialState (dbM : List DbRow) (dbD : List DirectMessage) : ChatState :=
  { connections := []
    messages := dbM.map (fun r => ⟨r.id, r.content, r.user, r.role⟩)
    directMessages := dbD
    onlineUsers := []
    connectionUsers := []
    dbMessages := dbM
    dbDirect := dbD }

/-- One hub step: a new connection opens (fresh id), an open connection delivers
a frame to `onMessage`, or an open connection closes. -/
inductive Step : ChatState → ChatState → Prop where
  | connect (s : ChatState) (conn : String) :
      conn ∉ s.connections → Step s (onConnect s conn).1
  | message (s : ChatState) (conn : String) (ev : RawEvent) :
      conn ∈ s.connections → Step s (onMessage s conn ev).1
  | close (s : ChatState) (conn : String) :
      conn ∈ s.connections → Step s (onClose s conn).1

/-- States reachable from a hydrated initial state. -/
def Reachable (s0 s : ChatState) : Prop :=
  Relation.ReflTransGen Step s0 s

/-! ### Generic list helpers -/

lemma map_id_of_fixed {α : Type} (l : List α) (f : α → α) (h : ∀ x ∈ l, f x = x) :
    l.map f = l := by
  induction l with
  | nil => rfl
  | cons a t ih =>
      simp only [List.map_cons, h a (List.mem_cons_self a t),
        ih fun x hx => h x (List.mem_cons_of_mem a hx)]

lemma filter_eq_nil_of_none {α : Type} (l : List α) (p : α → Bool)
    (h : ∀ x ∈ l, p x = false) : l.filter p = [] := by
  induction l with
  | nil => rfl
  | cons a t ih =>
      simp only [List.filter_cons, h a (List.mem_cons_self a t), Bool.false_eq_true,
        if_false]
      exact ih fun x hx => h x (List.mem_cons_of_mem a hx)

lemma jsonEscapeChar_plain (c : Char) (h : jsonPlainChar c = true) :
    jsonEscapeChar c = [c] := by
  simp only [jsonPlainChar, Bool.and_eq_true, bne_iff_ne, ne_eq,
    decide_eq_true_eq] at h
  obtain ⟨⟨hq, hb⟩, hge⟩ := h
  have h8 : ¬ c.toNat = 8 := by omega
  have h9 : ¬ c.toNat = 9 := by omega
  have h10 : ¬ c.toNat = 10 := by omega
  have h12 : ¬ c.toNat = 12 := by omega
  have h13 : ¬ c.toNat = 13 := by omega
  have hlt : ¬ c.toNat < 32 := by omega
  simp only [jsonEscapeChar, if_neg hq, if_neg hb, if_neg h8, if_neg h9,
    if_neg h10, if_neg h12, if_neg h13, if_neg hlt]

lemma flatten_map_jsonEscape (l : List Char)
    (h : ∀ c ∈ l, jsonPlainChar c = true) :
    (l.map jsonEscapeChar).flatten = l := by
  induction l with
  | nil => rfl
  | cons a t ih =>
      rw [List.map_cons, List.flatten_cons,
        jsonEscapeChar_plain a (h a (List.mem_cons_self a t)),
        ih fun c hc => h c (List.mem_cons_of_mem a hc), List.singleton_append]

lemma jsonEscapeBody_plain (s : String) (h : jsonPlain s = true) :
    jsonEscapeBody s = s := by
  cases s with
  | mk l =>
      have hall : ∀ c ∈ l, jsonPlainChar c = true := by
        simp only [jsonPlain, List.all_eq_true] at h
        exact h
      exact congrArg String.mk (flatten_map_jsonEscape l hall)

lemma saveMessageClean_parts (m : ChatMessage) (h : saveMessageClean m = true) :
    saveMessageSqlOk m = true ∧ jsonEscapeBody m.content = m.content := by
  simp only [saveMessageClean, Bool.and_eq_true] at h
  obtain ⟨⟨⟨h1, h2⟩, h3⟩, h4⟩ := h
  have hnq : hasChar m.content doubleQuoteChar = false := by
    rw [hasChar, List.any_eq_false]
    intro c hc
    have hp := List.all_eq_true.mp h4 c hc
    simp only [jsonPlainChar, Bool.and_eq_true] at hp
    simpa using hp.1.1
  constructor
  · simp only [saveMessageSqlOk, Bool.and_eq_true, hnq, Bool.not_false,
      and_true]
    exact ⟨⟨h1, h2⟩, h3⟩
  · exact jsonEscapeBody_plain m.content h4

/-! ### C1: applying an `add` event twice for a fresh id -/

/-- C1 counterexample: for an id containing a single quote — reachable, since
ids are client-supplied strings — the interpolated statement is unparseable, so
BOTH applications of `saveMessage` throw at `sql.exec` and the stored history
ends with zero rows, not one: the claim's "exactly one entry with that id in
the stored history" fails. -/
theorem add_twice_quote_id_stores_nothing :
    (saveMessage (saveMessage (initialState [] [])
          ⟨⟨['a', singleQuoteChar, 'b']⟩, "hi", "A", "user"⟩).1
        ⟨⟨['a', singleQuoteChar, 'b']⟩, "hi", "A", "user"⟩).1.dbMessages = [] ∧
    (saveMessage (initialState [] [])
        ⟨⟨['a', singleQuoteChar, 'b']⟩, "hi", "A", "user"⟩).2 = true := by
  decide

/-- C1 (amended): for a history and a store that do not yet contain the id,
and payloads whose interpolated SQL is well-formed and whose content survives
the `JSON.stringify` round trip (no single quote in `id`/`user`/`role`, no
double quote, backslash or control character in `content`), applying
`saveMessage` twice with that id leaves exactly one in-memory entry and exactly
one stored row with that id, whose content is the content of the last applied
payload (the stored row keeps the first payload's `user`/`role` columns), and
neither application throws. -/
theorem add_twice_yields_one_record (s : ChatState) (m1 m2 : ChatMessage)
    (hid : m2.id = m1.id)
    (hmem : ∀ x ∈ s.messages, x.id ≠ m1.id)
    (hdb : ∀ r ∈ s.dbMessages, r.id ≠ m1.id)
    (hcl1 : saveMessageClean m1 = true) (hcl2 : saveMessageClean m2 = true) :
    (saveMessage (saveMessage s m1).1 m2).1.messages.filter
        (fun x => x.id == m1.id) = [m2] ∧
    (saveMessage (saveMessage s m1).1 m2).1.dbMessages.filter
        (fun r => r.id == m1.id) = [⟨m1.id, m1.user, m1.role, m2.content⟩] ∧
    (saveMessage s m1).2 = false ∧
    (saveMessage (saveMessage s m1).1 m2).2 = false := by
  obtain ⟨hok1, hesc1⟩ := saveMessageClean_parts m1 hcl1
  obtain ⟨hok2, hesc2⟩ := saveMessageClean_parts m2 hcl2
  have hany1 : s.messages.any (fun x => x.id == m1.id) = false := by
    rw [List.any_eq_false]
    intro x hx
    simpa using hmem x hx
  have hdbany1 : s.dbMessages.any (fun r => r.id == m1.id) = false := by
    rw [List.any_eq_false]
    intro r hr
    simpa using hdb r hr
  have h1 : (saveMessage s m1).1
      = { s with messages := s.messages ++ [m1]
                 dbMessages := s.dbMessages
                   ++ [⟨m1.id, m1.user, m1.role, m1.content⟩] } := by
    simp [saveMessage, dbUpsertMessage, hany1, hdbany1, hok1, hesc1]
  have hany2 : (s.messages ++ [m1]).any (fun x => x.id == m2.id) = true := by
    simp [List.any_append, hid]
  have hdbany2 : (s.dbMessages ++ [(⟨m1.id, m1.user, m1.role, m1.content⟩ : DbRow)]).any
      (fun r => r.id == m2.id) = true := by
    simp [List.any_append, hid]
  refine ⟨?_, ?_, ?_, ?_⟩
  · rw [h1]
    simp only [saveMessage, hany2, if_true, List.map_append, List.filter_append]
    have hmap : (s.messages.map fun x => if x.id == m2.id then m2 else x) = s.messages := by
      apply map_id_of_fixed
      intro x hx
      have : (x.id == m2.id) = false := by
        simp [hid]
        exact hmem x hx
      simp [this]
    rw [hmap]
    have hnil : s.messages.filter (fun x => x.id == m1.id) = [] := by
      apply filter_eq_nil_of_none
      intro x hx
      simp
      exact hmem x hx
    rw [hnil]
    simp [hid]
  · rw [h1]
    simp only [saveMessage, dbUpsertMessage, hdbany2, hok2, hesc2, if_true,
      List.map_append, List.filter_append]
    have hmap : (s.dbMessages.map fun r =>
        if r.id == m2.id then { r with content := m2.content } else r) = s.dbMessages := by
      apply map_id_of_fixed
      intro r hr
      have : (r.id == m2.id) = false := by
        simp [hid]
        exact hdb r hr
      simp [this]
    rw [hmap]
    have hnil : s.dbMessages.filter (fun r => r.id == m1.id) = [] := by
      apply filter_eq_nil_of_none
      intro r hr
      simp
      exact hdb r hr
    rw [hnil]
    simp [hid]
  · simp [saveMessage, hok1]
  · simp [saveMessage, hok2]

/-- Witness for C1 (amended) at a concrete input. -/
theorem add_twice_yields_one_record_check :
    (saveMessage (saveMessage (initialState [] []) ⟨"m1", "hi", "A", "user"⟩).1
        ⟨"m1", "hi", "A", "user"⟩).1.messages.filter (fun x => x.id == "m1")
      = [⟨"m1", "hi", "A", "user"⟩] ∧
    (saveMessage (saveMessage (initialState [] []) ⟨"m1", "hi", "A", "user"⟩).1
        ⟨"m1", "hi", "A", "user"⟩).1.dbMessages.filter (fun r => r.id == "m1")
      = [⟨"m1", "A", "user", "hi"⟩] ∧
    (saveMessage (initialState [] []) ⟨"m1", "hi", "A", "user"⟩).2 = false ∧
    (saveMessage (saveMessage (initialState [] []) ⟨"m1", "hi", "A", "user"⟩).1
        ⟨"m1", "hi", "A", "user"⟩).2 = false := by
  exact add_twice_yields_one_record (initialState [] []) ⟨"m1", "hi", "A", "user"⟩
    ⟨"m1", "hi", "A", "user"⟩ rfl (by decide) (by decide) (by decide) (by decide)

lemma map_congr_mem {α β : Type} (l : List α) (f g : α → β)
    (h : ∀ x ∈ l, f x = g x) : l.map f = l.map g := by
  induction l with
  | nil => rfl
  | cons a t ih =>
      simp only [List.map_cons, h a (List.mem_cons_self a t),
        ih fun x hx => h x (List.mem_cons_of_mem a hx)]

/-- One application of the lookup-replace-or-append step shared by the in-memory
list and the table of `saveMessage` is idempotent. -/
lemma upsert_step_idem {α : Type} (p : α → Bool) (g : α → α) (a : α)
    (hp : ∀ x, p x = true → p (g x) = true)
    (hg : ∀ x, p x = true → g (g x) = g x)
    (hpa : p a = true) (hga : g a = a) (l : List α)
    (F : List α → List α)
    (hF : ∀ l', F l' = if l'.any p then l'.map (fun x => if p x then g x else x)
        else l' ++ [a]) :
    F (F l) = F l := by
  have hfix : ∀ x, (if p x then g x else x) =
      (fun y => if p y then g y else y) ((fun y => if p y then g y else y) x) := by
    intro x
    by_cases hx : p x = true
    · simp only [hx, if_true, hp x hx, hg x hx]
    · simp only [Bool.not_eq_true] at hx
      simp [hx]
  by_cases h : l.any p = true
  · have h1 : F l = l.map (fun x => if p x then g x else x) := by
      rw [hF, if_pos h]
    have h2 : (l.map fun x => if p x then g x else x).any p = true := by
      rw [List.any_eq_true] at h ⊢
      obtain ⟨x, hx, hpx⟩ := h
      refine ⟨(fun y => if p y then g y else y) x, List.mem_map_of_mem _ hx, ?_⟩
      simp only [hpx, if_true]
      exact hp x hpx
    rw [h1, hF, if_pos h2, List.map_map]
    symm
    apply map_congr_mem
    intro x _
    exact hfix x
  · simp only [Bool.not_eq_true] at h
    have hall : ∀ x ∈ l, p x = false := by
      intro x hx
      by_contra hc
      simp only [Bool.not_eq_false] at hc
      have : l.any p = true := List.any_eq_true.mpr ⟨x, hx, hc⟩
      simp [this] at h
    have h1 : F l = l ++ [a] := by
      rw [hF, h]
      simp
    have h2 : (l ++ [a]).any p = true := by
      simp [List.any_append, hpa]
    rw [h1, hF, if_pos h2, List.map_append]
    have h3 : (l.map fun x => if p x then g x else x) = l := by
      apply map_id_of_fixed
      intro x hx
      simp [hall x hx]
    have h4 : ([a].map fun x => if p x then g x else x) = [a] := by
      simp [hpa, hga]
    rw [h3, h4]

/-! ### C6: the conflict branch of the persisted upsert -/

/-- C6 counterexample: on an id conflict, the upsert of `saveMessage` does NOT
update the stored `role` column — replaying the event
`{id: "m1", content: "y", user: "a", role: "assistant"}` against a stored row
`("m1", "a", "user", "x")` leaves `role = "user"`, so the stored row is not the
one the claim predicts. -/
theorem upsert_conflict_role_not_updated :
    ¬ ((saveMessage
          { connections := [], messages := [⟨"m1", "x", "a", "user"⟩],
            directMessages := [], onlineUsers := [], connectionUsers := [],
            dbMessages := [⟨"m1", "a", "user", "x"⟩], dbDirect := [] }
          ⟨"m1", "y", "a", "assistant"⟩).1.dbMessages
        = [⟨"m1", "a", "assistant", "y"⟩]) := by
  decide

/-- C6 (amended): on an id conflict, when the interpolated statement is
well-formed and the content survives the `JSON.stringify` round trip (no
single quote in `id`/`user`/`role`, no double quote, backslash or control
character in `content`), the upsert updates only the `content` column, keeping
the stored `user` and `role`, and `sql.exec` does not throw; replaying the
same event twice still produces the same final state (in particular the same
stored record), because the second application rewrites the same content. -/
theorem upsert_conflict_content_only_and_idempotent (s : ChatState)
    (m : ChatMessage) (r : DbRow) (hr : r ∈ s.dbMessages) (hid : r.id = m.id)
    (hcl : saveMessageClean m = true) :
    (⟨r.id, r.user, r.role, m.content⟩ : DbRow) ∈ (saveMessage s m).1.dbMessages ∧
    (saveMessage (saveMessage s m).1 m).1 = (saveMessage s m).1 ∧
    (saveMessage s m).2 = false := by
  obtain ⟨hok, hesc⟩ := saveMessageClean_parts m hcl
  refine ⟨?_, ?_, by simp [saveMessage, hok]⟩
  · have hany : s.dbMessages.any (fun x => x.id == m.id) = true :=
      List.any_eq_true.mpr ⟨r, hr, by simp [hid]⟩
    have hdb : (saveMessage s m).1.dbMessages
        = s.dbMessages.map
            (fun x => if x.id == m.id then { x with content := m.content } else x) := by
      simp only [saveMessage, dbUpsertMessage, hok, hesc, hany, if_true]
    rw [hdb]
    have : (⟨r.id, r.user, r.role, m.content⟩ : DbRow)
        = (fun x => if x.id == m.id then { x with content := m.content } else x) r := by
      simp [hid]
    rw [this]
    exact List.mem_map_of_mem _ hr
  · ext1
    · rfl
    · show (saveMessage (saveMessage s m).1 m).1.messages
        = (saveMessage s m).1.messages
      have hm : ∀ s' : ChatState, (saveMessage s' m).1.messages
          = if s'.messages.any (fun x => x.id == m.id) then
              s'.messages.map (fun x => if x.id == m.id then m else x)
            else s'.messages ++ [m] := fun s' => rfl
      have := upsert_step_idem (fun x : ChatMessage => x.id == m.id) (fun _ => m) m
        (by intro x _; simp) (by intro x _; rfl) (by simp) rfl s.messages
        (fun l => if l.any (fun x => x.id == m.id) then
            l.map (fun x => if x.id == m.id then m else x) else l ++ [m])
        (fun l' => rfl)
      simp only [hm]
      simpa using this
    · rfl
    · rfl
    · rfl
    · show (saveMessage (saveMessage s m).1 m).1.dbMessages
        = (saveMessage s m).1.dbMessages
      have hm : ∀ s' : ChatState, (saveMessage s' m).1.dbMessages
          = if saveMessageSqlOk m then
              dbUpsertMessage s'.dbMessages m.id m.user m.role (jsonEscapeBody m.content)
            else s'.dbMessages := fun s' => rfl
      have := upsert_step_idem (fun x : DbRow => x.id == m.id)
        (fun x => { x with content := jsonEscapeBody m.content })
        ⟨m.id, m.user, m.role, jsonEscapeBody m.content⟩
        (by intro x hx; simpa using hx) (by intro x _; rfl) (by simp) rfl
        s.dbMessages
        (fun db => dbUpsertMessage db m.id m.user m.role (jsonEscapeBody m.content))
        (fun l' => rfl)
      simp only [hm, hok, if_true]
      simpa using this
    · rfl

/-- Witness for C6 (amended) at a concrete input. -/
theorem upsert_conflict_content_only_and_idempotent_check :
    (⟨"m1", "a", "user", "y"⟩ : DbRow) ∈ (saveMessage
        { connections := [], messages := [⟨"m1", "x", "a", "user"⟩],
          directMessages := [], onlineUsers := [], connectionUsers := [],
          dbMessages := [⟨"m1", "a", "user", "x"⟩], dbDirect := [] }
        ⟨"m1", "y", "a", "assistant"⟩).1.dbMessages ∧
    (saveMessage (saveMessage
        { connections := [], messages := [⟨"m1", "x", "a", "user"⟩],
          directMessages := [], onlineUsers := [], connectionUsers := [],
          dbMessages := [⟨"m1", "a", "user", "x"⟩], dbDirect := [] }
        ⟨"m1", "y", "a", "assistant"⟩).1 ⟨"m1", "y", "a", "assistant"⟩).1
      = (saveMessage
        { connections := [], messages := [⟨"m1", "x", "a", "user"⟩],
          directMessages := [], onlineUsers := [], connectionUsers := [],
          dbMessages := [⟨"m1", "a", "user", "x"⟩], dbDirect := [] }
        ⟨"m1", "y", "a", "assistant"⟩).1 ∧
    (saveMessage
        { connections := [], messages := [⟨"m1", "x", "a", "user"⟩],
          directMessages := [], onlineUsers := [], connectionUsers := [],
          dbMessages := [⟨"m1", "a", "user", "x"⟩], dbDirect := [] }
        ⟨"m1", "y", "a", "assistant"⟩).2 = false :=
  upsert_conflict_content_only_and_idempotent _ ⟨"m1", "y", "a", "assistant"⟩
    ⟨"m1", "a", "user", "x"⟩ (by decide) rfl (by decide)

/-! ### C8: an `update` for an existing id replaces in place -/

/-- C8: when the id is already present, `saveMessage` replaces matching entries
in place: the resulting list is the pointwise replacement of the old list (so
every non-matching entry keeps its value and every entry keeps its position),
and the sequence of ids is unchanged. -/
theorem update_replaces_in_place (s : ChatState) (m : ChatMessage)
    (h : ∃ x ∈ s.messages, x.id = m.id) :
    (saveMessage s m).1.messages
        = s.messages.map (fun x => if x.id == m.id then m else x) ∧
    (saveMessage s m).1.messages.map (fun x => x.id)
        = s.messages.map (fun x => x.id) := by
  have hany : s.messages.any (fun x => x.id == m.id) = true := by
    rw [List.any_eq_true]
    obtain ⟨x, hx, hxid⟩ := h
    exact ⟨x, hx, by simp [hxid]⟩
  have h1 : (saveMessage s m).1.messages
      = s.messages.map (fun x => if x.id == m.id then m else x) := by
    show (if s.messages.any (fun x => x.id == m.id) then
        s.messages.map (fun x => if x.id == m.id then m else x)
      else s.messages ++ [m]) = _
    rw [if_pos hany]
  refine ⟨h1, ?_⟩
  rw [h1, List.map_map]
  apply map_congr_mem
  intro x _
  by_cases hx : (x.id == m.id) = true
  · simp only [Function.comp_apply, hx, if_true]
    exact (beq_iff_eq.mp hx).symm
  · simp only [Bool.not_eq_true] at hx
    have hne : ¬ x.id = m.id := by simpa using hx
    simp [hx, hne]

/-- Witness for C8: history `[A, B, C]`, update of `B`'s content. -/
theorem update_replaces_in_place_check :
    (saveMessage
        { connections := [], messages := [⟨"a", "1", "u", "user"⟩,
            ⟨"b", "2", "u", "user"⟩, ⟨"c", "3", "u", "user"⟩],
          directMessages := [], onlineUsers := [], connectionUsers := [],
          dbMessages := [], dbDirect := [] }
        ⟨"b", "2!", "u", "user"⟩).1.messages
      = ([⟨"a", "1", "u", "user"⟩, ⟨"b", "2", "u", "user"⟩,
          ⟨"c", "3", "u", "user"⟩] : List ChatMessage).map
          (fun x => if x.id == "b" then ⟨"b", "2!", "u", "user"⟩ else x) ∧
    (saveMessage
        { connections := [], messages := [⟨"a", "1", "u", "user"⟩,
            ⟨"b", "2", "u", "user"⟩, ⟨"c", "3", "u", "user"⟩],
          directMessages := [], onlineUsers := [], connectionUsers := [],
          dbMessages := [], dbDirect := [] }
        ⟨"b", "2!", "u", "user"⟩).1.messages.map (fun x => x.id)
      = ([⟨"a", "1", "u", "user"⟩, ⟨"b", "2", "u", "user"⟩,
          ⟨"c", "3", "u", "user"⟩] : List ChatMessage).map (fun x => x.id) := by
  refine update_replaces_in_place _ _ ?_
  exact ⟨⟨"b", "2", "u", "user"⟩, by decide, rfl⟩

/-! ### C9: the on-connect snapshot -/

/-- C9: `onConnect` sends the new connection exactly the `all` snapshot of the
full in-memory message list, the `direct-all` snapshot of the full
direct-message list, and one `presence … online` frame per currently-online
user id, in that order; every payload is addressed to the new connection and
none is broadcast; the hub state is unchanged except for registering the
connection. -/
theorem onConnect_sends_full_snapshot (s : ChatState) (conn : String) :
    (onConnect s conn).2
        = [Output.send conn (Payload.msg (Message.all s.messages)),
           Output.send conn (Payload.msg (Message.directAll s.directMessages))]
          ++ s.onlineUsers.map
              (fun u => Output.send conn (Payload.msg (Message.presence u true))) ∧
    (∀ o ∈ (onConnect s conn).2, ∃ p, o = Output.send conn p) ∧
    (onConnect s conn).1 = { s with connections := s.connections ++ [conn] } := by
  refine ⟨rfl, ?_, rfl⟩
  intro o ho
  simp only [onConnect, List.mem_append, List.mem_cons, List.mem_map,
    List.not_mem_nil, or_false] at ho
  rcases ho with (h | h) | ⟨u, _, h⟩
  · exact ⟨_, h⟩
  · exact ⟨_, h⟩
  · exact ⟨_, h.symm⟩

/-! ### C10: the direct-message history is append-only -/

/-- C10: no hub entry point removes or modifies an existing in-memory
direct-message entry: every handler leaves the old `directMessages` list as a
prefix of the new one; a `direct-add` appends exactly its message (even when
the id already exists, in which case the earlier entry is left untouched), and
`onConnect`/`onClose` never change the list. -/
theorem direct_history_append_only (s : ChatState) (conn c r : String)
    (ev : RawEvent) (dm : DirectMessage) :
    (∃ t, (onMessage s conn ev).1.directMessages = s.directMessages ++ t) ∧
    (onMessage s conn (RawEvent.event r (Message.directAdd dm))).1.directMessages
        = s.directMessages ++ [dm] ∧
    (onConnect s c).1.directMessages = s.directMessages ∧
    (onClose s c).1.directMessages = s.directMessages := by
  refine ⟨?_, rfl, rfl, ?_⟩
  · cases ev with
    | malformed raw => exact ⟨[], by simp [onMessage]⟩
    | nullLit raw => exact ⟨[], by simp [onMessage]⟩
    | unknown raw => exact ⟨[], by simp [onMessage]⟩
    | event raw m =>
        cases m with
        | add id content user role => exact ⟨[], by simp [onMessage, saveMessage]⟩
        | update id content user role => exact ⟨[], by simp [onMessage, saveMessage]⟩
        | directAdd dm' => exact ⟨[dm'], by simp [onMessage, saveDirectMessage]⟩
        | presence userId isOnline =>
            refine ⟨[], ?_⟩
            simp only [onMessage, updatePresence, List.append_nil]
            split
            · rfl
            · split <;> rfl
        | all msgs => exact ⟨[], by simp [onMessage]⟩
        | signal a b c d => exact ⟨[], by simp [onMessage]⟩
        | directAll msgs => exact ⟨[], by simp [onMessage]⟩
        | typing a b c => exact ⟨[], by simp [onMessage]⟩
        | roomInvite a b c d e f g => exact ⟨[], by simp [onMessage]⟩
  · simp only [onClose]
    cases hm : mapGet (s.connections.erase c |> fun cs =>
        ({ s with connections := cs } : ChatState)).connectionUsers c with
    | none => simp [hm]
    | some u =>
        simp only [hm]
        split
        · rfl
        · split <;> rfl

/-! ### C2, C4, C5: re-broadcast and error behaviour of `onMessage` -/

/-- A two-connection room with empty histories, used as a concrete input. -/
def twoConnState : ChatState :=
  { connections := ["c1", "c2"], messages := [], directMessages := [],
    onlineUsers := [], connectionUsers := [], dbMessages := [], dbDirect := [] }

/-- C2 counterexample: the re-broadcast does NOT exclude the sending
connection. In a room with connections `c1, c2`, when `c1` sends a frame, the
broadcast issued by `onMessage` is delivered to both `c1` and `c2` — the
receiving set is not `{c2}` as the claim states, because `Chat.onMessage` calls
`this.broadcast(message)` with no exclusion list. -/
theorem rebroadcast_does_not_exclude_sender :
    (onMessage twoConnState "c1" (RawEvent.unknown "x")).2.1
        = [Output.broadcast (Payload.raw "x")] ∧
    (deliveries twoConnState.connections (Output.broadcast (Payload.raw "x"))).map
        (fun d => d.1) = ["c1", "c2"] ∧
    ¬ ((deliveries twoConnState.connections (Output.broadcast (Payload.raw "x"))).map
        (fun d => d.1) = ["c2"]) := by
  decide

/-- C2 (amended): every inbound frame, of any parse outcome, is first
re-broadcast with its raw bytes unmodified, and the broadcast is delivered to
every connection of the room — the sender included, who therefore receives its
own event back. -/
theorem rebroadcast_verbatim_to_all (s : ChatState) (conn : String)
    (ev : RawEvent) :
    (onMessage s conn ev).2.1.head? = some (Output.broadcast (Payload.raw ev.raw)) ∧
    deliveries s.connections (Output.broadcast (Payload.raw ev.raw))
        = s.connections.map (fun c => (c, Payload.raw ev.raw)) ∧
    (conn ∈ s.connections →
      (conn, Payload.raw ev.raw) ∈
        deliveries s.connections (Output.broadcast (Payload.raw ev.raw))) := by
  refine ⟨?_, rfl, ?_⟩
  · cases ev with
    | malformed raw => rfl
    | nullLit raw => rfl
    | unknown raw => rfl
    | event raw m =>
        cases m with
        | add id content user role => rfl
        | update id content user role => rfl
        | directAdd dm => rfl
        | presence userId isOnline => rfl
        | all msgs => rfl
        | signal a b c d => rfl
        | directAll msgs => rfl
        | typing a b c => rfl
        | roomInvite a b c d e f g => rfl
  · intro hconn
    simp only [deliveries, List.mem_map]
    exact ⟨conn, hconn, rfl⟩

/-- Witness for C2 (amended) at a concrete input. -/
theorem rebroadcast_verbatim_to_all_check :
    (onMessage twoConnState "c1" (RawEvent.malformed "ju nk")).2.1.head?
        = some (Output.broadcast (Payload.raw "ju nk")) ∧
    deliveries twoConnState.connections (Output.broadcast (Payload.raw "ju nk"))
        = twoConnState.connections.map (fun c => (c, Payload.raw "ju nk")) ∧
    ("c1" ∈ twoConnState.connections →
      ("c1", Payload.raw "ju nk") ∈
        deliveries twoConnState.connections
          (Output.broadcast (Payload.raw "ju nk"))) :=
  rebroadcast_verbatim_to_all twoConnState "c1" (RawEvent.malformed "ju nk")

lemma find?_filter_key_ne (l : List (String × String)) (k k2 : String)
    (h : k ≠ k2) :
    (l.filter (fun e => e.1 != k2)).find? (fun e => e.1 == k)
      = l.find? (fun e => e.1 == k) := by
  induction l with
  | nil => rfl
  | cons a t ih =>
      by_cases ha : a.1 = k2
      · have hk2 : (k2 == k) = false := by
          simp only [beq_eq_false_iff_ne, ne_eq]
          exact fun hc => h hc.symm
        simp only [List.filter_cons, ha, bne_self_eq_false, Bool.false_eq_true,
          if_false, List.find?_cons, hk2, ih]
      · have hbne : (a.1 != k2) = true := by simpa using ha
        simp only [List.filter_cons, hbne, if_true, List.find?_cons]
        cases hk : (a.1 == k) with
        | true => rfl
        | false => exact ih

lemma mapGet_mapDelete_ne (cu : List (String × String)) (k k2 : String)
    (h : k ≠ k2) : mapGet (mapDelete cu k2) k = mapGet cu k := by
  simp only [mapGet, mapDelete, find?_filter_key_ne cu k k2 h]

lemma mapGet_some_mem (l : List (String × String)) (k v : String)
    (h : mapGet l k = some v) : (k, v) ∈ l := by
  simp only [mapGet, Option.map_eq_some'] at h
  obtain ⟨e, he, hev⟩ := h
  have hmem := List.mem_of_find?_eq_some he
  have hkey := List.find?_some he
  rcases e with ⟨a, b⟩
  simp only [beq_iff_eq] at hkey
  simp only at hev
  subst hkey
  subst hev
  exact hmem

/-- The state reached from a fresh room by: connect `c1` and `c2`, then each
sends `presence "" isOnline: true` — the empty string is an accepted,
client-supplied user id, so both connections end up attributed to `""`. -/
def emptyUserState : ChatState :=
  (onMessage (onMessage (onConnect (onConnect (initialState [] []) "c1").1
      "c2").1 "c1" (RawEvent.event "p1" (Message.presence "" true))).1
      "c2" (RawEvent.event "p2" (Message.presence "" true))).1

/-- C7 counterexample: for the empty-string user id the claim fails — both
connections sent `presence … isOnline: true`, yet closing the first and then
the last attributed connection broadcasts NOTHING, because `onClose`'s falsy
check `if (!userId) return` fires on the empty string before any bookkeeping:
no offline frame is ever emitted. -/
theorem empty_user_last_close_broadcasts_nothing :
    (onClose emptyUserState "c1").2 = [] ∧
    (onClose (onClose emptyUserState "c1").1 "c2").2 = [] ∧
    ¬ ((onClose (onClose emptyUserState "c1").1 "c2").2
        = [Output.broadcast (Payload.msg (Message.presence "" false))]) := by
  decide

/-- C7 (amended): if two distinct open connections `c1`, `c2` are both
attributed to user `u` (each has sent `presence … isOnline: true`) and `u` is
not the empty string, closing `c1` broadcasts nothing; if they were the only
connections attributed to `u`, then closing `c2` afterwards emits exactly one
broadcast, the `presence u offline` frame. (For the empty-string user id the
falsy check in `onClose` suppresses the offline broadcast entirely, see the
counterexample.) -/
theorem offline_broadcast_only_on_last_close (s : ChatState) (c1 c2 u : String)
    (hne : c1 ≠ c2) (hu : u ≠ "")
    (h1 : mapGet s.connectionUsers c1 = some u)
    (h2 : mapGet s.connectionUsers c2 = some u)
    (honly : ∀ e ∈ s.connectionUsers, e.2 = u → e.1 = c1 ∨ e.1 = c2) :
    (onClose s c1).2 = [] ∧
    (onClose (onClose s c1).1 c2).2
        = [Output.broadcast (Payload.msg (Message.presence u false))] := by
  obtain ⟨cs, ms, dms, ou, cu, dbm, dbd⟩ := s
  simp only at h1 h2 honly
  have hube : (u == "") = false := by simpa using hu
  have hmem2 : (c2, u) ∈ cu := mapGet_some_mem cu c2 u h2
  have hstill1 : (mapValues (mapDelete cu c1)).any (fun x => x == u) = true := by
    rw [List.any_eq_true]
    refine ⟨u, ?_, by simp⟩
    simp only [mapValues, mapDelete, List.mem_map]
    refine ⟨(c2, u), ?_, rfl⟩
    rw [List.mem_filter]
    exact ⟨hmem2, by simpa using hne.symm⟩
  have e1 : onClose ⟨cs, ms, dms, ou, cu, dbm, dbd⟩ c1
      = (⟨cs.erase c1, ms, dms, ou, mapDelete cu c1, dbm, dbd⟩, []) := by
    simp only [onClose, h1, hube, Bool.false_eq_true, if_false, hstill1, if_true]
  have hget2 : mapGet (mapDelete cu c1) c2 = some u := by
    rw [mapGet_mapDelete_ne cu c2 c1 hne.symm]
    exact h2
  have hstill2 : (mapValues (mapDelete (mapDelete cu c1) c2)).any
      (fun x => x == u) = false := by
    rw [List.any_eq_false]
    intro x hx
    simp only [mapValues, mapDelete, List.mem_map] at hx
    obtain ⟨e, he, hev⟩ := hx
    rw [List.mem_filter] at he
    obtain ⟨he1, hek2⟩ := he
    rw [List.mem_filter] at he1
    obtain ⟨hmem, hek1⟩ := he1
    intro hxu
    have hxu' : x = u := by simpa using hxu
    have := honly e hmem (by rw [hev, hxu'])
    rcases this with hc | hc
    · rw [hc] at hek1
      simp at hek1
    · rw [hc] at hek2
      simp at hek2
  have e2 : onClose (⟨cs.erase c1, ms, dms, ou, mapDelete cu c1, dbm, dbd⟩ : ChatState) c2
      = (⟨(cs.erase c1).erase c2, ms, dms, ou.filter (fun x => x != u),
          mapDelete (mapDelete cu c1) c2, dbm, dbd⟩,
         [Output.broadcast (Payload.msg (Message.presence u false))]) := by
    simp only [onClose, hget2, hube, hstill2, Bool.false_eq_true, if_false]
  rw [e1]
  simp [e2]

/-- Witness for C7 at a concrete input: user `u` on connections `c1`, `c2`. -/
theorem offline_broadcast_only_on_last_close_check :
    (onClose
        { connections := ["c1", "c2"], messages := [], directMessages := [],
          onlineUsers := ["u"], connectionUsers := [("c1", "u"), ("c2", "u")],
          dbMessages := [], dbDirect := [] } "c1").2 = [] ∧
    (onClose (onClose
        { connections := ["c1", "c2"], messages := [], directMessages := [],
          onlineUsers := ["u"], connectionUsers := [("c1", "u"), ("c2", "u")],
          dbMessages := [], dbDirect := [] } "c1").1 "c2").2
      = [Output.broadcast (Payload.msg (Message.presence "u" false))] := by
  refine offline_broadcast_only_on_last_close _ "c1" "c2" "u" ?_ ?_ ?_ ?_ ?_
  · decide
  · decide
  · decide
  · decide
  · decide

/-! ### C3: the presence invariant -/

/-- The state expression reached from a fresh room by: connect `c1`, then `c1`
sends `presence u1 online`, then `c1` sends `presence u2 online`. The second
presence event re-attributes `c1` to `u2`, leaving `u1` in the online set with
no attributed connection. -/
def ghostOnlineState : ChatState :=
  (onMessage (onMessage (onConnect (initialState [] []) "c1").1 "c1"
      (RawEvent.event "p1" (Message.presence "u1" true))).1 "c1"
      (RawEvent.event "p2" (Message.presence "u2" true))).1

/-- C3 counterexample: a state reachable by `onConnect`/`onMessage` steps in
which `u1` is in the online set although no open connection is attributed to
`u1` — a connection may re-attribute itself to a different user id by sending a
second presence event, and `updatePresence` does not clean up the old user. -/
theorem online_user_without_open_connection :
    Reachable (initialState [] []) ghostOnlineState ∧
    "u1" ∈ ghostOnlineState.onlineUsers ∧
    ∀ c ∈ ghostOnlineState.connections,
      ¬ (mapGet ghostOnlineState.connectionUsers c = some "u1") := by
  refine ⟨?_, by decide, by decide⟩
  have hs1 : Step (initialState [] []) (onConnect (initialState [] []) "c1").1 :=
    Step.connect (initialState [] []) "c1" (by decide)
  have hs2 : Step (onConnect (initialState [] []) "c1").1
      (onMessage (onConnect (initialState [] []) "c1").1 "c1"
        (RawEvent.event "p1" (Message.presence "u1" true))).1 :=
    Step.message _ "c1" (RawEvent.event "p1" (Message.presence "u1" true)) (by decide)
  have hs3 : Step (onMessage (onConnect (initialState [] []) "c1").1 "c1"
        (RawEvent.event "p1" (Message.presence "u1" true))).1 ghostOnlineState :=
    Step.message _ "c1" (RawEvent.event "p2" (Message.presence "u2" true)) (by decide)
  exact Relation.ReflTransGen.tail (Relation.ReflTransGen.tail
    (Relation.ReflTransGen.single hs1) hs2) hs3

/-- A frame is attribution-consistent for its sending connection when, if it is
a presence event for user `u`, the claimed user id is not the empty string (the
hub's falsy checks treat `""` like a missing attribution) and the connection is
currently unattributed or already attributed to `u` (a client only ever claims
its own, fixed user id). -/
def presenceConsistent (s : ChatState) (conn : String) : RawEvent → Prop
  | .event _ (.presence u _) =>
      u ≠ "" ∧
      (mapGet s.connectionUsers conn = none ∨ mapGet s.connectionUsers conn = some u)
  | _ => True

/-- Hub steps restricted to attribution-consistent inbound frames. -/
inductive StepA : ChatState → ChatState → Prop where
  | connect (s : ChatState) (conn : String) :
      conn ∉ s.connections → StepA s (onConnect s conn).1
  | message (s : ChatState) (conn : String) (ev : RawEvent) :
      conn ∈ s.connections → presenceConsistent s conn ev →
      StepA s (onMessage s conn ev).1
  | close (s : ChatState) (conn : String) :
      conn ∈ s.connections → StepA s (onClose s conn).1

/-- States reachable through attribution-consistent traffic. -/
def ReachableA (s0 s : ChatState) : Prop :=
  Relation.ReflTransGen StepA s0 s

/-- The auxiliary invariant: attribution keys are distinct, every attributed
connection is open, no attributed user id is the empty string, and every
online user has an attributed entry. -/
def PresenceInv (s : ChatState) : Prop :=
  (s.connectionUsers.map (fun e => e.1)).Nodup ∧
  (∀ e ∈ s.connectionUsers, e.1 ∈ s.connections) ∧
  (∀ e ∈ s.connectionUsers, e.2 ≠ "") ∧
  (∀ u ∈ s.onlineUsers, ∃ e ∈ s.connectionUsers, e.2 = u)

lemma key_nodup_find? (l : List (String × String))
    (hnd : (l.map (fun e => e.1)).Nodup) (e : String × String) (he : e ∈ l) :
    l.find? (fun x => x.1 == e.1) = some e := by
  induction l with
  | nil => cases he
  | cons a t ih =>
      rw [List.map_cons, List.nodup_cons] at hnd
      obtain ⟨hna, hnt⟩ := hnd
      rcases List.mem_cons.mp he with rfl | ht
      · simp [List.find?_cons]
      · have hne : (a.1 == e.1) = false := by
          simp only [beq_eq_false_iff_ne, ne_eq]
          intro hc
          apply hna
          rw [hc]
          exact List.mem_map_of_mem _ ht
        simp only [List.find?_cons, hne]
        exact ih hnt ht

lemma mapGet_of_mem_nodup (l : List (String × String))
    (hnd : (l.map (fun e => e.1)).Nodup) (e : String × String) (he : e ∈ l) :
    mapGet l e.1 = some e.2 := by
  simp only [mapGet, key_nodup_find? l hnd e he, Option.map_some']

lemma mapGet_eq_none_iff (l : List (String × String)) (k : String) :
    mapGet l k = none ↔ ∀ e ∈ l, e.1 ≠ k := by
  simp only [mapGet, Option.map_eq_none', List.find?_eq_none, beq_iff_eq]

lemma inv_onConnect (s : ChatState) (conn : String) (h : PresenceInv s) :
    PresenceInv (onConnect s conn).1 := by
  obtain ⟨h1, h2, h3, h4⟩ := h
  refine ⟨h1, ?_, h3, h4⟩
  intro e he
  exact List.mem_append_left _ (h2 e he)

lemma inv_onClose (s : ChatState) (conn : String) (h : PresenceInv s) :
    PresenceInv (onClose s conn).1 := by
  obtain ⟨h1, h2, h3, h4⟩ := h
  have hsub : ((mapDelete s.connectionUsers conn).map (fun e => e.1)).Nodup :=
    h1.sublist (List.Sublist.map _ (List.filter_sublist _))
  have hmemdel : ∀ e, e ∈ mapDelete s.connectionUsers conn →
      e ∈ s.connectionUsers ∧ e.1 ≠ conn := by
    intro e he
    rw [mapDelete, List.mem_filter] at he
    exact ⟨he.1, by simpa using he.2⟩
  have hopen : ∀ e, e ∈ mapDelete s.connectionUsers conn →
      e.1 ∈ s.connections.erase conn := by
    intro e he
    obtain ⟨hmem, hne⟩ := hmemdel e he
    exact (List.mem_erase_of_ne hne).mpr (h2 e hmem)
  have hne3 : ∀ e ∈ mapDelete s.connectionUsers conn, e.2 ≠ "" := by
    intro e he
    exact h3 e (hmemdel e he).1
  rcases hget : mapGet s.connectionUsers conn with _ | u
  · have hnone := (mapGet_eq_none_iff s.connectionUsers conn).mp hget
    have : (onClose s conn).1 = { s with connections := s.connections.erase conn } := by
      simp only [onClose, hget]
    rw [this]
    refine ⟨h1, ?_, h3, h4⟩
    intro e he
    exact (List.mem_erase_of_ne (hnone e he)).mpr (h2 e he)
  · have hu : u ≠ "" := h3 (conn, u) (mapGet_some_mem _ _ _ hget)
    have hube : (u == "") = false := by simpa using hu
    have hval : ∀ e ∈ s.connectionUsers, e.1 = conn → e.2 = u := by
      intro e he hke
      have := mapGet_of_mem_nodup s.connectionUsers h1 e he
      rw [hke, hget] at this
      exact (Option.some.injEq _ _ ▸ this).symm
    by_cases hstill : (mapValues (mapDelete s.connectionUsers conn)).any
        (fun x => x == u) = true
    · have hcl : (onClose s conn).1
          = { s with
                connections := s.connections.erase conn
                connectionUsers := mapDelete s.connectionUsers conn } := by
        simp only [onClose, hget, hube, Bool.false_eq_true, if_false, hstill,
          if_true]
      rw [hcl]
      refine ⟨hsub, hopen, hne3, ?_⟩
      intro v hv
      by_cases hvu : v = u
      · rw [List.any_eq_true] at hstill
        obtain ⟨x, hx, hxu⟩ := hstill
        rw [mapValues, List.mem_map] at hx
        obtain ⟨e, he, hev⟩ := hx
        refine ⟨e, he, ?_⟩
        rw [hev, hvu]
        simpa using hxu
      · obtain ⟨e, he, hev⟩ := h4 v hv
        refine ⟨e, ?_, hev⟩
        rw [mapDelete, List.mem_filter]
        refine ⟨he, ?_⟩
        simp only [bne_iff_ne, ne_eq]
        intro hke
        exact hvu (by rw [← hev, hval e he hke])
    · simp only [Bool.not_eq_true] at hstill
      have hcl : (onClose s conn).1
          = { s with
                connections := s.connections.erase conn
                connectionUsers := mapDelete s.connectionUsers conn
                onlineUsers := s.onlineUsers.filter (fun x => x != u) } := by
        simp only [onClose, hget, hube, hstill, Bool.false_eq_true, if_false]
      rw [hcl]
      refine ⟨hsub, hopen, hne3, ?_⟩
      intro v hv
      rw [List.mem_filter] at hv
      obtain ⟨hvmem, hvne⟩ := hv
      have hvu : v ≠ u := by simpa using hvne
      obtain ⟨e, he, hev⟩ := h4 v hvmem
      refine ⟨e, ?_, hev⟩
      rw [mapDelete, List.mem_filter]
      refine ⟨he, ?_⟩
      simp only [bne_iff_ne, ne_eq]
      intro hke
      exact hvu (by rw [← hev, hval e he hke])

lemma mapSet_append_of_absent (l : List (String × String)) (k v : String)
    (h : ∀ e ∈ l, e.1 ≠ k) : mapSet l k v = l ++ [(k, v)] := by
  have hany : l.any (fun e => e.1 == k) = false := by
    rw [List.any_eq_false]
    intro e he
    simpa using h e he
  simp only [mapSet, hany, Bool.false_eq_true, if_false]

lemma mapSet_self (l : List (String × String)) (k v : String)
    (hnd : (l.map (fun e => e.1)).Nodup) (h : mapGet l k = some v) :
    mapSet l k v = l := by
  have hmem : (k, v) ∈ l := mapGet_some_mem l k v h
  have hany : l.any (fun e => e.1 == k) = true :=
    List.any_eq_true.mpr ⟨(k, v), hmem, by simp⟩
  simp only [mapSet, hany, if_true]
  apply map_id_of_fixed
  intro e he
  by_cases hk : (e.1 == k) = true
  · have hk' : e.1 = k := beq_iff_eq.mp hk
    have hg := mapGet_of_mem_nodup l hnd e he
    rw [hk', h] at hg
    have hv : v = e.2 := by simpa using hg
    rw [if_pos hk]
    rcases e with ⟨a, b⟩
    simp only at hk' hv
    rw [hk', hv]
  · simp only [Bool.not_eq_true] at hk
    simp [hk]

lemma keys_nodup_append (l : List (String × String)) (k v : String)
    (hnd : (l.map (fun e => e.1)).Nodup) (h : ∀ e ∈ l, e.1 ≠ k) :
    ((l ++ [(k, v)]).map (fun e => e.1)).Nodup := by
  rw [List.map_append, List.nodup_append]
  refine ⟨hnd, List.nodup_singleton _, ?_⟩
  intro a ha hb
  simp only [List.map_cons, List.map_nil, List.mem_singleton] at hb
  subst hb
  rw [List.mem_map] at ha
  obtain ⟨e, he, hek⟩ := ha
  exact h e he hek

lemma inv_updatePresence (s : ChatState) (conn u : String)
    (hc : conn ∈ s.connections) (hu : u ≠ "")
    (hpc : mapGet s.connectionUsers conn = none ∨
      mapGet s.connectionUsers conn = some u)
    (h : PresenceInv s) : PresenceInv (updatePresence s conn u true).1 := by
  obtain ⟨h1, h2, h3, h4⟩ := h
  rcases hpc with hnone | hsome
  · have habs := (mapGet_eq_none_iff s.connectionUsers conn).mp hnone
    have hset : mapSet s.connectionUsers conn u
        = s.connectionUsers ++ [(conn, u)] :=
      mapSet_append_of_absent s.connectionUsers conn u habs
    have hnd : ((s.connectionUsers ++ [(conn, u)]).map (fun e => e.1)).Nodup :=
      keys_nodup_append s.connectionUsers conn u h1 habs
    have hmem : ∀ e ∈ s.connectionUsers ++ [(conn, u)], e.1 ∈ s.connections := by
      intro e he
      rcases List.mem_append.mp he with hl | hr
      · exact h2 e hl
      · rw [List.mem_singleton] at hr
        rw [hr]
        exact hc
    have hne : ∀ e ∈ s.connectionUsers ++ [(conn, u)], e.2 ≠ "" := by
      intro e he
      rcases List.mem_append.mp he with hl | hr
      · exact h3 e hl
      · rw [List.mem_singleton] at hr
        rw [hr]
        exact hu
    by_cases hon : s.onlineUsers.any (fun x => x == u) = true
    · have e1 : (updatePresence s conn u true).1
          = { s with connectionUsers := mapSet s.connectionUsers conn u } := by
        simp only [updatePresence, Bool.not_true, Bool.false_eq_true, if_false,
          hon, if_true]
      rw [e1, hset]
      refine ⟨hnd, hmem, hne, ?_⟩
      intro v hv
      obtain ⟨e, he, hev⟩ := h4 v hv
      exact ⟨e, List.mem_append_left _ he, hev⟩
    · have e1 : (updatePresence s conn u true).1
          = { s with
                connectionUsers := mapSet s.connectionUsers conn u
                onlineUsers := s.onlineUsers ++ [u] } := by
        simp only [Bool.not_eq_true] at hon
        simp only [updatePresence, Bool.not_true, Bool.false_eq_true, if_false,
          hon, if_true]
      rw [e1, hset]
      refine ⟨hnd, hmem, hne, ?_⟩
      intro v hv
      rcases List.mem_append.mp hv with hl | hr
      · obtain ⟨e, he, hev⟩ := h4 v hl
        exact ⟨e, List.mem_append_left _ he, hev⟩
      · rw [List.mem_singleton] at hr
        subst hr
        exact ⟨(conn, v), List.mem_append_right _ (List.mem_singleton.mpr rfl), rfl⟩
  · have hset : mapSet s.connectionUsers conn u = s.connectionUsers :=
      mapSet_self s.connectionUsers conn u h1 hsome
    have hwit : (conn, u) ∈ s.connectionUsers :=
      mapGet_some_mem s.connectionUsers conn u hsome
    by_cases hon : s.onlineUsers.any (fun x => x == u) = true
    · have e1 : (updatePresence s conn u true).1
          = { s with connectionUsers := mapSet s.connectionUsers conn u } := by
        simp only [updatePresence, Bool.not_true, Bool.false_eq_true, if_false,
          hon, if_true]
      rw [e1, hset]
      exact ⟨h1, h2, h3, h4⟩
    · have e1 : (updatePresence s conn u true).1
          = { s with
                connectionUsers := mapSet s.connectionUsers conn u
                onlineUsers := s.onlineUsers ++ [u] } := by
        simp only [Bool.not_eq_true] at hon
        simp only [updatePresence, Bool.not_true, Bool.false_eq_true, if_false,
          hon, if_true]
      rw [e1, hset]
      refine ⟨h1, h2, h3, ?_⟩
      intro v hv
      rcases List.mem_append.mp hv with hl | hr
      · exact h4 v hl
      · rw [List.mem_singleton] at hr
        subst hr
        exact ⟨(conn, v), hwit, rfl⟩

lemma inv_onMessage (s : ChatState) (conn : String) (ev : RawEvent)
    (hc : conn ∈ s.connections) (hpc : presenceConsistent s conn ev)
    (h : PresenceInv s) : PresenceInv (onMessage s conn ev).1 := by
  obtain ⟨h1, h2, h3, h4⟩ := h
  cases ev with
  | malformed raw => exact ⟨h1, h2, h3, h4⟩
  | nullLit raw => exact ⟨h1, h2, h3, h4⟩
  | unknown raw => exact ⟨h1, h2, h3, h4⟩
  | event raw m =>
      cases m with
      | add id content user role => exact ⟨h1, h2, h3, h4⟩
      | update id content user role => exact ⟨h1, h2, h3, h4⟩
      | directAdd dm => exact ⟨h1, h2, h3, h4⟩
      | presence u b =>
          cases b with
          | false => exact ⟨h1, h2, h3, h4⟩
          | true => exact inv_updatePresence s conn u hc hpc.1 hpc.2 ⟨h1, h2, h3, h4⟩
      | all msgs => exact ⟨h1, h2, h3, h4⟩
      | signal a b c d => exact ⟨h1, h2, h3, h4⟩
      | directAll msgs => exact ⟨h1, h2, h3, h4⟩
      | typing a b c => exact ⟨h1, h2, h3, h4⟩
      | roomInvite a b c d e f g => exact ⟨h1, h2, h3, h4⟩

lemma inv_stepA (s s' : ChatState) (h : PresenceInv s) (hs : StepA s s') :
    PresenceInv s' := by
  cases hs with
  | connect conn hconn => exact inv_onConnect s conn h
  | message conn ev hconn hpc => exact inv_onMessage s conn ev hconn hpc h
  | close conn hconn => exact inv_onClose s conn h

lemma inv_initialState (dbM : List DbRow) (dbD : List DirectMessage) :
    PresenceInv (initialState dbM dbD) := by
  refine ⟨?_, ?_, ?_, ?_⟩ <;> simp [initialState, PresenceInv]

lemma inv_reachableA (dbM : List DbRow) (dbD : List DirectMessage)
    (s : ChatState) (h : ReachableA (initialState dbM dbD) s) : PresenceInv s := by
  induction h with
  | refl => exact inv_initialState dbM dbD
  | tail _ hstep ih => exact inv_stepA _ _ ih hstep

/-- C3 (amended): in every state reachable from a hydrated initial state by
attribution-consistent traffic — no connection ever claims a second, different
user id in its presence events, and no presence event carries the empty-string
user id (which the hub's falsy checks treat as no attribution) — a user id in
the online set always has at least one open connection attributed to it.
(Without those restrictions the invariant fails, see the counterexample.) -/
theorem online_user_has_attributed_connection (dbM : List DbRow)
    (dbD : List DirectMessage) (s : ChatState) (u : String)
    (hs : ReachableA (initialState dbM dbD) s) (hu : u ∈ s.onlineUsers) :
    ∃ c ∈ s.connections, mapGet s.connectionUsers c = some u := by
  obtain ⟨h1, h2, _, h4⟩ := inv_reachableA dbM dbD s hs
  obtain ⟨e, he, hev⟩ := h4 u hu
  refine ⟨e.1, h2 e he, ?_⟩
  rw [mapGet_of_mem_nodup s.connectionUsers h1 e he, hev]

/-- Witness for C3 (amended): connect `c1`, then `c1` declares `u1` online. -/
theorem online_user_has_attributed_connection_check :
    ∃ c ∈ (onMessage (onConnect (initialState [] []) "c1").1 "c1"
        (RawEvent.event "p1" (Message.presence "u1" true))).1.connections,
      mapGet (onMessage (onConnect (initialState [] []) "c1").1 "c1"
        (RawEvent.event "p1" (Message.presence "u1" true))).1.connectionUsers c
        = some "u1" := by
  refine online_user_has_attributed_connection [] [] _ "u1" ?_ (by decide)
  have hs1 : StepA (initialState [] []) (onConnect (initialState [] []) "c1").1 :=
    StepA.connect (initialState [] []) "c1" (by decide)
  have hs2 : StepA (onConnect (initialState [] []) "c1").1
      (onMessage (onConnect (initialState [] []) "c1").1 "c1"
        (RawEvent.event "p1" (Message.presence "u1" true))).1 :=
    StepA.message _ "c1" (RawEvent.event "p1" (Message.presence "u1" true))
      (by decide) ⟨by decide, Or.inl rfl⟩
  exact Relation.ReflTransGen.tail (Relation.ReflTransGen.single hs1) hs2

end SamaryChat
